import Mathlib

/-!
Verification of the JoikervgBot IRC bot (a Sopel fork) against its
natural-language specification.  Each definition below is a shallow
embedding of a function from the repository sources
(`JoikervgBot.py`, `sopel/bot.py`, `sopel/coretasks.py`,
`sopel/config.py`); theorems settle the specification claims.
-/

set_option maxHeartbeats 1000000

namespace JoikervgBot

/-! ## Rejoin retry (`sopel/coretasks.py`, `retry_join`, numeric 477)

The handler's state for one channel is its entry in
`bot.memory['retry_join']`: absent (`none`) before the first denial,
or `some n` where `n` is the stored counter.  The handler either
joins immediately (first denial), sleeps 6 seconds and joins
(counter after increment is `≤ 10`), or logs a warning and stops
(counter after increment is `> 10`). -/

/-- The externally visible action `retry_join` takes on one 477 denial. -/
inductive RetryAction
  | joinNow
  | sleepJoin
  | warnGiveUp
  deriving DecidableEq, Repr

/-- `retry_join` for a single channel: given the channel's entry in
`bot.memory['retry_join']` (`none` if the key is absent), return the
updated entry and the action taken.  Mirrors coretasks.py lines 79-96:
if the channel is a key, increment; if the incremented counter
exceeds 10, log the warning and return; otherwise sleep 6 seconds and
join.  If the channel is not a key, set the counter to 0 and join. -/
def retry_join : Option Nat → Option Nat × RetryAction
  | some n =>
      if n + 1 > 10 then (some (n + 1), RetryAction.warnGiveUp)
      else (some (n + 1), RetryAction.sleepJoin)
  | none => (some 0, RetryAction.joinNow)

/-- Channel entry after `k` consecutive denials, starting from the
empty map (entry absent). -/
def retryState : Nat → Option Nat
  | 0 => none
  | k + 1 => (retry_join (retryState k)).1

/-- Action taken on the `k`-th consecutive denial (1-indexed). -/
def retryNthAction (k : Nat) : RetryAction :=
  (retry_join (retryState (k - 1))).2

/-- Whether an action performs a join of the channel. -/
def RetryAction.isJoin : RetryAction → Bool
  | RetryAction.warnGiveUp => false
  | _ => true

/-- Number of join attempts performed during the first `n` consecutive
denials. -/
def joinCount (n : Nat) : Nat :=
  (List.range n).countP (fun k => (retryNthAction (k + 1)).isJoin)

/-! ## Job rescheduling (`sopel/bot.py`, `Sopel.Job.next`)

Times are modelled as rationals.  `max_catchup = 5`. -/

/-- `Sopel.Job.next` (bot.py lines 226-249): recompute the next
execution time from the previous scheduled time `last_time`, the
`interval`, and the completion time `current_time`. -/
def jobNext (interval last_time current_time : ℚ) : ℚ :=
  let delta := last_time + interval - current_time
  if last_time > current_time + interval then
    current_time + interval
  else if delta < 0 ∧ |delta| > interval * 5 then
    current_time - interval * 5
  else
    last_time + interval

/-! ## Association-list model of Python dicts -/

/-- `d.get(k)` on a Python dict, modelled as an association list. -/
def dictGet [DecidableEq κ] (m : List (κ × α)) (k : κ) : Option α :=
  match m.find? (fun p => decide (p.1 = k)) with
  | some p => some p.2
  | none => none

/-- `d[k] = v` on a Python dict: replace in place, or append a new key. -/
def dictSet [DecidableEq κ] (m : List (κ × α)) (k : κ) (v : α) : List (κ × α) :=
  match m with
  | [] => [(k, v)]
  | p :: rest => if p.1 = k then (k, v) :: rest else p :: dictSet rest k v

/-! ## Capability requests (`sopel/bot.py`, `Sopel.cap_req`)

Capability strings are modelled as `List Char` so that the source's
`capability[0]` / `capability[1:]` slicing is direct.  A failure
callback is identified by a number. -/

/-- One registry entry: (disposition characters, requesting module name,
optional failure callback). -/
abbrev CapEntry := List Char × String × Option Nat

/-- The slice of bot state that `cap_req` reads and writes. -/
structure CapState where
  connection_registered : Bool
  enabled_capabilities : List (List Char)
  cap_reqs : List (List Char × List CapEntry)
  deriving DecidableEq, Repr

/-- `Sopel.cap_req` (bot.py lines 815-861).  An empty capability string
raises IndexError at `capability[0]` in the source; raised exceptions
are modelled with `Except.error`. -/
def cap_req (st : CapState) (module_name : String) (capability : List Char)
    (failure_callback : Option Nat) : Except String CapState :=
  match capability with
  | [] => Except.error "string index out of range"
  | c0 :: rest =>
    if c0 = '-' then
      let cap := rest
      if st.connection_registered ∧ cap ∈ st.enabled_capabilities then
        Except.error "Can not change capabilities after server connection has been completed."
      else
        let entry := (dictGet st.cap_reqs cap).getD []
        if entry.any (fun ent => decide (ent.1 ≠ ['-'])) then
          Except.error "Capability conflict"
        else
          let reqs := dictSet st.cap_reqs cap (entry ++ [(['-'], module_name, failure_callback)])
          Except.ok { st with cap_reqs := reqs }
    else
      let pr : List Char := if c0 = '=' then [c0] else []
      let cap := if c0 = '=' then rest else capability
      if st.connection_registered ∧ cap ∉ st.enabled_capabilities then
        Except.error "Can not change capabilities after server connection has been completed."
      else
        let entry := (dictGet st.cap_reqs cap).getD []
        if entry.any (fun ent => decide (ent.1 = ['-'])) then
          Except.error "Capability conflict"
        else
          let reqs := dictSet st.cap_reqs cap (entry ++ [(pr, module_name, failure_callback)])
          Except.ok { st with cap_reqs := reqs }

/-! ## Rate-limited invocation (`sopel/bot.py`, `Sopel.call`)

`self.times` maps (nick, handler) to the last-used time; handlers are
identified by name and times are rationals.  The three `time.time()`
reads of one call are modelled as the single value `now`.  The
handler's body is abstracted by whether its return value equals the
`NOLIMIT` sentinel (`retNoLimit`); an exception inside the body yields
`None`, which is not the sentinel. -/

abbrev TimesMap := List ((String × String) × ℚ)

/-- Result of `Sopel.call`: whether the handler body ran, and the
updated last-used-time map. -/
structure CallResult where
  executed : Bool
  times : TimesMap
  deriving DecidableEq, Repr

/-- `Sopel.call` (bot.py lines 636-664).  The `if nick not in
self.times` initialisation of an empty per-nick dict is a no-op in the
flat-map model. -/
def call (times : TimesMap) (admin unblockable : Bool) (rate : ℚ)
    (nick fname : String) (now : ℚ) (retNoLimit : Bool) : CallResult :=
  let prev :=
    if admin = false ∧ unblockable = false then dictGet times (nick, fname) else none
  match prev with
  | some last =>
      if now - last < rate then
        { executed := false, times := dictSet times (nick, fname) now }
      else
        { executed := true,
          times := if retNoLimit then times else dictSet times (nick, fname) now }
  | none =>
      { executed := true,
        times := if retNoLimit then times else dictSet times (nick, fname) now }

/-! ## CAP LS processing (`sopel/coretasks.py`, `recieve_cap_ls_reply`)

The values of `bot._cap_reqs` have two shapes in the source: the flat
`['', 'coretasks', None]` list that `recieve_cap_ls_reply` itself
stores for `multi-prefix` (coretasks.py line 358), and the list of
(disposition, module, callback) tuples appended by `Sopel.cap_req`
(bot.py lines 847 and 860) and read back as such by the NAK handler
(coretasks.py lines 333-338).  The LS loop indexes every value as a
flat triple, so on a `cap_req`-stored list `req[0]` is a tuple and
`req[0] + cap` at line 364 raises TypeError.  Failure callbacks are
recorded by the argument they would be called with; raised exceptions
are modelled with `Except.error`, carrying the state at the raise. -/

/-- A value of `bot._cap_reqs`: the flat triple stored for
`multi-prefix` by `recieve_cap_ls_reply`, or the list of triples
appended by `Sopel.cap_req`. -/
inductive CapReqVal
  | flat (pfx : String) (module_name : String) (cb : Option Nat)
  | entries (l : List (String × String × Option Nat))
  deriving DecidableEq, Repr

/-- The slice of bot state that `recieve_cap_ls_reply` touches. -/
structure LsState where
  server_capabilities : List String
  cap_reqs : List (String × CapReqVal)
  sasl_password : Bool
  writes : List (List String)
  failure_calls : List String
  deriving DecidableEq, Repr

/-- Body of the `for cap, req in bot._cap_reqs` loop (coretasks.py
lines 360-367).  On a flat value, `req[0]` is the disposition string:
request the capability unless it is mandatory and not advertised, in
which case call its failure callback if present.  On a list value
stored by `cap_req`, `req[0]` is a tuple, so `req[0] != '='` is true
and `req[0] + cap` at line 364 raises TypeError (on an empty list,
`req[0]` itself raises IndexError). -/
def capLsProcessOne (st : LsState) (cap : String) (req : CapReqVal) :
    Except String LsState :=
  match req with
  | CapReqVal.flat pfx _m cb =>
      if pfx ≠ "=" ∨ cap ∈ st.server_capabilities then
        Except.ok { st with writes := st.writes ++ [["CAP", "REQ", pfx ++ cap]] }
      else if cb.isSome then
        Except.ok { st with failure_calls := st.failure_calls ++ [pfx ++ cap] }
      else Except.ok st
  | CapReqVal.entries [] => Except.error "IndexError: list index out of range"
  | CapReqVal.entries (_ :: _) =>
      Except.error "TypeError: can only concatenate tuple (not str) to tuple"

/-- The registry loop: process the items in order (dict iteration
order is modelled by the association list's order), stopping at the
first raised exception; the error carries the exception text and the
state at the raise, since side effects already performed remain. -/
def capLsLoop (items : List (String × CapReqVal)) (st : LsState) :
    Except (String × LsState) LsState :=
  match items with
  | [] => Except.ok st
  | p :: rest =>
      match capLsProcessOne st p.1 p.2 with
      | Except.ok st2 => capLsLoop rest st2
      | Except.error e => Except.error (e, st)

/-- Lines 355-358: if no module already registered `multi-prefix`, add
a best-effort flat entry for it attributed to coretasks. -/
def capLsEnsureMP (st : LsState) : LsState :=
  if (dictGet st.cap_reqs "multi-prefix").isNone then
    { st with cap_reqs :=
        dictSet st.cap_reqs "multi-prefix" (CapReqVal.flat "" "coretasks" none) }
  else st

/-- Lines 369-374: request `sasl` if a SASL password is configured,
otherwise send `CAP END`. -/
def capLsFinish (st : LsState) : LsState :=
  if st.sasl_password then { st with writes := st.writes ++ [["CAP", "REQ", "sasl"]] }
  else { st with writes := st.writes ++ [["CAP", "END"]] }

/-- `recieve_cap_ls_reply` (coretasks.py lines 345-374).  `advertised`
is `set(trigger.split(' '))`; if the advertised set was already
recorded, return at once.  An exception raised in the registry loop
propagates (the caller `recieve_cap_list` does not catch it), so the
final SASL-request/CAP END stage is never reached in that case. -/
def recieve_cap_ls_reply (st : LsState) (advertised : List String) :
    Except (String × LsState) LsState :=
  if st.server_capabilities ≠ [] then Except.ok st
  else
    match capLsLoop (capLsEnsureMP { st with server_capabilities := advertised }).cap_reqs
        (capLsEnsureMP { st with server_capabilities := advertised }) with
    | Except.ok st3 => Except.ok (capLsFinish st3)
    | Except.error e => Except.error e

/-! ## Nick case-folding and privilege constants -/

/-- Modelled from the spec: RFC-1459 case-folding of one character, as
used by `sopel.tools.Nick` (`sopel/tools.py` is not under src/): ASCII
lowercasing, with `[`, `]`, `\`, `~` folded to their lowercase
counterparts (the brace characters, the bar and the caret). -/
def rfc1459LowerChar (c : Char) : Char :=
  if c = '[' then Char.ofNat 123
  else if c = ']' then Char.ofNat 125
  else if c = '\\' then '|'
  else if c = '~' then Char.ofNat 94
  else c.toLower

/-- Modelled from the spec: the folded form of a nickname; two `Nick`
values are equal exactly when their folded forms are equal. -/
def foldNick (s : String) : String :=
  String.mk (s.data.map rfc1459LowerChar)

/-- Modelled from the spec: privilege bitmask constant `VOICE` of
`sopel/module.py` (not under src/). -/
def VOICE : Nat := 1

/-- Modelled from the spec: privilege bitmask constant `HALFOP`. -/
def HALFOP : Nat := 2

/-- Modelled from the spec: privilege bitmask constant `OP`. -/
def OP : Nat := 4

/-- Modelled from the spec: privilege bitmask constant `ADMIN`. -/
def ADMIN : Nat := 8

/-- Modelled from the spec: privilege bitmask constant `OWNER`. -/
def OWNER : Nat := 16

/-! ## MODE tracking (`sopel/coretasks.py`, `track_modes`)

State for one channel: the privilege bitmask dict plus the legacy
op/half-op/voice membership lists.  Nicknames are stored folded. -/

/-- Per-channel tracking state touched by `track_modes`. -/
structure ModeState where
  privileges : List (String × Nat)
  ops : List String
  halfplus : List String
  voices : List String
  deriving DecidableEq, Repr

/-- Modelled from the spec: the connection layer's `add_op` /
`add_halfop` / `add_voice` (`sopel/irc.py` is not under src/) adds the
nick to the channel's legacy membership list. -/
def legacyAdd (l : List String) (nick : String) : List String :=
  if nick ∈ l then l else l ++ [nick]

/-- Modelled from the spec: the connection layer's `del_op` /
`del_halfop` / `del_voice` removes the nick from the channel's legacy
membership list. -/
def legacyDel (l : List String) (nick : String) : List String :=
  l.filter (fun n => decide (n ≠ nick))

/-- The `mapping` dict of `track_modes` (coretasks.py lines 190-194):
privilege bit for a mode character. -/
def privMapping (c : Char) : Option Nat :=
  if c = 'v' then some VOICE
  else if c = 'h' then some HALFOP
  else if c = 'o' then some OP
  else if c = 'a' then some ADMIN
  else if c = 'q' then some OWNER
  else none

/-- The `modes` accumulation of `track_modes` (coretasks.py lines
157-164): walk the mode characters, remembering the current sign
(initially the empty string) and emitting sign-plus-character tokens
for non-sign characters. -/
def breakModes (mode_sec : List Char) : List (List Char) :=
  (mode_sec.foldl
    (fun acc c =>
      if c = '+' ∨ c = '-' then (acc.1, [c])
      else (acc.1 ++ [acc.2 ++ [c]], acc.2))
    (([], []) : List (List Char) × List Char)).1

/-- One iteration of the `for nick, mode in zip(nicks, modes)` loop of
`track_modes` (coretasks.py lines 195-217): OR the privilege bit into
the bitmask map (for any sign), then update the legacy list for the
mode character per sign.  A sign-less single-character token raises
IndexError at `mode[1]` in the source; it is modelled as leaving the
state unchanged. -/
def applyModePair (st : ModeState) (nick : String) (mode : List Char) : ModeState :=
  match mode with
  | [sign, mc] =>
    let priv := (dictGet st.privileges nick).getD 0
    let st1 :=
      match privMapping mc with
      | some value => { st with privileges := dictSet st.privileges nick (priv ||| value) }
      | none => st
    if mc = 'o' ∨ mc = 'q' ∨ mc = 'a' then
      if sign = '+' then { st1 with ops := legacyAdd st1.ops nick }
      else { st1 with ops := legacyDel st1.ops nick }
    else if mc = 'h' then
      if sign = '+' then { st1 with halfplus := legacyAdd st1.halfplus nick }
      else { st1 with halfplus := legacyDel st1.halfplus nick }
    else if mc = 'v' then
      if sign = '+' then { st1 with voices := legacyAdd st1.voices nick }
      else { st1 with voices := legacyDel st1.voices nick }
    else st1
  | _ => st

/-- Line 173: `modes = modes[:(len(nicks) + 1)]` when there are more
modes than nicks. -/
def truncModes (modes : List (List Char)) (numNicks : Nat) : List (List Char) :=
  if modes.length > numNicks then modes.take (numNicks + 1) else modes

/-- Line 180: `nicks = nicks[:(len(modes) - 1)]` when there are more
nicks than modes. -/
def truncNicks (nicks : List String) (numModes : Nat) : List String :=
  if numModes < nicks.length then nicks.take (numModes - 1) else nicks

/-- The truncation-and-pairing stage of `track_modes` (coretasks.py
lines 166-195): apply the mismatch truncations; if either list is then
empty, nothing is applied; otherwise zip nicks with modes. -/
def modePairs (mode_sec : List Char) (nickArgs : List String) : List (String × List Char) :=
  let nicks := nickArgs.map foldNick
  let modes := breakModes mode_sec
  let modes2 := truncModes modes nicks.length
  let nicks2 := truncNicks nicks modes.length
  if modes2.length = 0 ∨ nicks2.length = 0 then []
  else nicks2.zip modes2

/-- `track_modes` (coretasks.py lines 146-217) for the channel whose
state is `st`: ignore non-channel targets, then fold the
truncated-and-paired (nick, signed mode) list over the state.  (When
the pairing is empty the source returns early; folding the empty list
is the same no-op.) -/
def track_modes (st : ModeState) (args : List String) : ModeState :=
  match args with
  | target :: mode_sec :: rest =>
    if target.take 1 ≠ "#" then st
    else (modePairs mode_sec.toList rest).foldl (fun s p => applyModePair s p.1 p.2) st
  | _ => st

/-! ## Block-list management (`sopel/coretasks.py`, `blocks`) -/

/-- Effect of one `.blocks` invocation: the resulting configuration
lists, how many times `bot.config.save()` ran, and the texts sent with
`bot.reply` and `bot.say`. -/
structure BlocksResult where
  nick_blocks : List String
  host_blocks : List String
  saves : Nat
  replies : List String
  sayTexts : List String
  deriving DecidableEq, Repr

/-- `list.remove(Nick(v))`: drop the first entry equal to `v` under
nick folding. -/
def removeFirstNick : List String → String → List String
  | [], _ => []
  | x :: rest, v =>
      if foldNick x = foldNick v then rest else x :: removeFirstNick rest v

/-- The `blocks` command handler (coretasks.py lines 411-488).
`text` is `trigger.group().split()`; `masks` and `nicks` come from the
configuration lists (`Nick` wrapping preserves the text and folds only
comparisons). -/
def blocks (admin : Bool) (text : List String)
    (hostBlocksCfg nickBlocksCfg : List String) : BlocksResult :=
  let masks := hostBlocksCfg
  let nicks := nickBlocksCfg
  let base : BlocksResult :=
    { nick_blocks := nicks, host_blocks := masks, saves := 0, replies := [], sayTexts := [] }
  if admin = false then base
  else
    match text with
    | [_, t1, t2] =>
      if t1 = "list" then
        if t2 = "hostmask" then
          if masks.length > 0 ∧ masks.count "" = 0 then
            let out := (masks.filter (fun e => decide (e.length > 0))).map
              (fun e => "blocked hostmask: " ++ e)
            { base with sayTexts := out }
          else { base with replies := ["No hostmasks listed in the blocklist."] }
        else if t2 = "nick" then
          if nicks.length > 0 ∧ nicks.countP (fun x => decide (foldNick x = foldNick "")) = 0 then
            let out := (nicks.filter (fun e => decide (e.length > 0))).map
              (fun e => "blocked nick: " ++ e)
            { base with sayTexts := out }
          else { base with replies := ["No nicks listed in the blocklist."] }
        else { base with replies := ["Invalid input for displaying blocks."] }
      else { base with replies := ["I could not figure out what you wanted to do."] }
    | [_, t1, t2, t3] =>
      if t1 = "add" then
        if t2 = "nick" then
          { base with nick_blocks := nicks ++ [t3], saves := 1,
                      replies := ["Successfully added block: " ++ t3] }
        else if t2 = "hostmask" then
          { base with host_blocks := masks ++ [t3.toLower],
                      replies := ["Successfully added block: " ++ t3] }
        else
          { base with replies :=
              ["Invalid format for adding a block. Try: .blocks add (nick|hostmask) sopel"] }
      else if t1 = "del" then
        if t2 = "nick" then
          if nicks.any (fun x => decide (foldNick x = foldNick t3)) = false then
            { base with replies := ["No matching nick block found for: " ++ t3] }
          else
            { base with nick_blocks := removeFirstNick nicks t3, saves := 1,
                        replies := ["Successfully deleted block: " ++ t3] }
        else if t2 = "hostmask" then
          let mask := t3.toLower
          if (mask ∈ masks) = False then
            { base with replies := ["No matching hostmask block found for: " ++ t3] }
          else
            { base with host_blocks := masks.erase mask, saves := 1,
                        replies := ["Successfully deleted block: " ++ t3] }
        else
          { base with replies :=
              ["Invalid format for deleting a block. Try: .blocks add (nick|hostmask) sopel"] }
      else { base with replies := ["I could not figure out what you wanted to do."] }
    | _ => { base with replies := ["I could not figure out what you wanted to do."] }

/-! ## Entry point `--list` branch (`JoikervgBot.py`, `main`)

File names are modelled as `List Char`. -/

/-- `enumerate_configs` (JoikervgBot.py lines 23-31): the names in the
configuration directory's listing that end with the extension; empty
when the directory does not exist. -/
def enumerate_configs (dirExists : Bool) (listing : List (List Char))
    (extension : List Char) : List (List Char) :=
  if dirExists then listing.filter (fun item => extension.isSuffixOf item) else []

/-- Outcome of the `--list` branch. -/
inductive ListOutcome
  | printedNames (names : List (List Char))
  | noneFound
  | indexError
  deriving DecidableEq, Repr

/-- The `--list` branch of `main` (JoikervgBot.py lines 86-95):
`configs = enumerate_configs()`, then `if len(configs[0]) is 0` print
the none-found message, else print every name, and return.  On an
empty list, `configs[0]` raises an uncaught IndexError.  (CPython's
`is` on the small integer 0 behaves as equality here.) -/
def listConfigsBranch (configs : List (List Char)) : ListOutcome :=
  match configs.get? 0 with
  | none => ListOutcome.indexError
  | some c0 =>
      if c0.length = 0 then ListOutcome.noneFound
      else ListOutcome.printedNames configs

/-! ## Trigger admin / owner flags (`sopel/bot.py`, `Sopel.Trigger.__new__`) -/

/-- The admin and owner flags computed by `Sopel.Trigger.__new__`
(bot.py lines 568-602), returned as (admin, owner).  The truthiness of
`re.compile(pat).findall(host)` is abstracted as the parameter
`findall`; `each_admin.split('@')[1]` is the piece between the first
and second `@`. -/
def trigger_admin_owner (admins : List String) (ownerCfg : String)
    (nick host : String) (findall : String → String → Bool) : Bool × Bool :=
  let admin0 : Bool :=
    if admins.length > 0 then
      admins.any (fun n => decide (foldNick nick = foldNick n))
    else false
  let admin1 : Bool :=
    if admin0 = false ∧ admins.length > 0 then
      admins.foldl
        (fun acc a =>
          if findall a host then true
          else if a.data.contains '@' then
            if findall ((a.splitOn "@").getD 1 "") host then true else acc
          else acc)
        admin0
    else admin0
  let owner : Bool :=
    if ownerCfg = "" then false
    else if ownerCfg.data.contains '@' then decide (nick ++ "@" ++ host = ownerCfg)
    else decide (foldNick nick = foldNick ownerCfg)
  (admin1 || owner, owner)

/-! ## Theorems -/

/-- C1 counterexample: starting from an empty retry map, ten
consecutive 477 denials produce ten join attempts, but the eleventh
consecutive denial still waits 6 seconds and joins (its incremented
counter is 10, and the give-up test is `> 10`) — it does not log the
warning and stop as the claim states. -/
theorem C1_retry_counterexample :
    joinCount 10 = 10 ∧ retryNthAction 11 = RetryAction.sleepJoin := by
  decide

/-- C1 (amended): on the first denial for a channel the bot joins
immediately and sets the counter to 0; each subsequent denial
increments the counter and, while the incremented counter is at most
10, waits 6 seconds and joins again, and logs a warning with no join
once it exceeds 10.  Ten consecutive denials produce ten join
attempts, the eleventh denial still produces an eleventh join, and the
twelfth consecutive denial logs the warning and performs no further
join. -/
theorem C1_retry_join_bound :
    retry_join none = (some 0, RetryAction.joinNow) ∧
    (∀ n : Nat, (retry_join (some n)).1 = some (n + 1)) ∧
    (∀ n : Nat, n + 1 > 10 → (retry_join (some n)).2 = RetryAction.warnGiveUp) ∧
    (∀ n : Nat, ¬ n + 1 > 10 → (retry_join (some n)).2 = RetryAction.sleepJoin) ∧
    joinCount 10 = 10 ∧
    retryNthAction 11 = RetryAction.sleepJoin ∧
    joinCount 11 = 11 ∧
    retryNthAction 12 = RetryAction.warnGiveUp ∧
    joinCount 12 = 11 := by
  refine ⟨rfl, ?_, ?_, ?_, by decide, by decide, by decide, by decide, by decide⟩
  · intro n
    by_cases h : n + 1 > 10 <;> simp [retry_join, h]
  · intro n h
    simp [retry_join, h]
  · intro n h
    simp [retry_join, h]

/-- Witness for `C1_retry_join_bound` at counter 10. -/
theorem C1_retry_join_bound_witness :
    (10 : Nat) + 1 > 10 ∧ (retry_join (some 10)).2 = RetryAction.warnGiveUp :=
  ⟨by decide, C1_retry_join_bound.2.2.1 10 (by decide)⟩

/-- C3: the job rescheduling policy. For interval `i > 0`: if
`last_time > current_time + i` the next time is `current_time + i`; if
`current_time - (last_time + i) > 5 * i` it is `current_time - 5 * i`;
otherwise it is `last_time + i`.  For `i = 10` and an execution 1000
seconds late, the next time is `current_time - 50`; the next time is
never further behind than `current_time - 5 * i`. -/
theorem C3_job_next (i last cur : ℚ) (hi : 0 < i) :
    (last > cur + i → jobNext i last cur = cur + i) ∧
    (cur - (last + i) > 5 * i → jobNext i last cur = cur - 5 * i) ∧
    (¬ last > cur + i → ¬ cur - (last + i) > 5 * i → jobNext i last cur = last + i) ∧
    jobNext 10 last (last + 1000) = (last + 1000) - 50 ∧
    cur - 5 * i ≤ jobNext i last cur := by
  refine ⟨?_, ?_, ?_, ?_, ?_⟩
  · intro h
    simp only [jobNext]
    rw [if_pos h]
  · intro h
    simp only [jobNext]
    rw [if_neg (by linarith), if_pos ⟨by linarith, by rw [abs_of_neg (by linarith)]; linarith⟩]
    ring
  · intro h1 h2
    simp only [jobNext]
    rw [if_neg h1, if_neg]
    rintro ⟨hd, ha⟩
    rw [abs_of_neg hd] at ha
    exact h2 (by linarith)
  · simp only [jobNext]
    have hd : last + 10 - (last + 1000) = -990 := by ring
    rw [if_neg (by linarith), if_pos ⟨by linarith, by rw [hd]; norm_num⟩]
    ring
  · simp only [jobNext]
    split_ifs with h1 h2
    · linarith
    · linarith
    · by_contra hlt
      push_neg at hlt
      exact h2 ⟨by linarith, by rw [abs_of_neg (by linarith)]; linarith⟩

/-- Witness for `C3_job_next` at `i = 10`, `last = 0`, `cur = 0`. -/
theorem C3_job_next_witness :
    (0 : ℚ) < 10 ∧ jobNext 10 0 (0 + 1000) = (0 + 1000) - 50 :=
  ⟨by norm_num, (C3_job_next 10 0 0 (by norm_num)).2.2.2.1⟩

/-- C2 (code evaluated at the failing input): for an admin,
`.blocks add nick <v>` appends `v` to `nick_blocks`, saves the
configuration once, and replies with the success confirmation — but
`.blocks add hostmask <v>` appends the lowercased value and replies
with the confirmation while calling `bot.config.save()` zero times, so
the hostmask block list is never persisted. -/
theorem C2_blocks_add_persistence (hostBlocksCfg nickBlocksCfg : List String) (v : String) :
    blocks true [".blocks", "add", "nick", v] hostBlocksCfg nickBlocksCfg =
      { nick_blocks := nickBlocksCfg ++ [v], host_blocks := hostBlocksCfg, saves := 1,
        replies := ["Successfully added block: " ++ v], sayTexts := [] } ∧
    blocks true [".blocks", "add", "hostmask", v] hostBlocksCfg nickBlocksCfg =
      { nick_blocks := nickBlocksCfg, host_blocks := hostBlocksCfg ++ [v.toLower], saves := 0,
        replies := ["Successfully added block: " ++ v], sayTexts := [] } := by
  constructor <;> rfl

/-- C8 (code evaluated at the failing input): with at least one
discovered configuration file the `--list` branch prints every
discovered name and returns, but with no discovered configuration
files it evaluates `configs[0]` on an empty list and raises an
uncaught IndexError instead of printing the none-found message. -/
theorem C8_list_flag (listing : List (List Char))
    (hne : enumerate_configs true listing (".cfg".toList) ≠ []) :
    listConfigsBranch (enumerate_configs true listing (".cfg".toList)) =
      ListOutcome.printedNames (enumerate_configs true listing (".cfg".toList)) ∧
    listConfigsBranch (enumerate_configs true [] (".cfg".toList)) =
      ListOutcome.indexError := by
  refine ⟨?_, by decide⟩
  cases hl : enumerate_configs true listing (".cfg".toList) with
  | nil => exact absurd hl hne
  | cons c0 restl =>
    have hmem : c0 ∈ enumerate_configs true listing (".cfg".toList) := by
      rw [hl]
      exact List.mem_cons_self _ _
    have hsuf : (".cfg".toList).isSuffixOf c0 = true := by
      simp only [enumerate_configs, if_pos trivial, List.mem_filter] at hmem
      · exact hmem.2
    have hlen : (".cfg".toList).length ≤ c0.length :=
      (List.isSuffixOf_iff_suffix.mp hsuf).length_le
    have hne0 : c0.length ≠ 0 := by
      intro h0
      rw [h0] at hlen
      simp at hlen
    simp [listConfigsBranch, hne0]

/-- Witness for `C8_list_flag` with one discovered configuration file. -/
theorem C8_list_flag_witness :
    enumerate_configs true ["default.cfg".toList] (".cfg".toList) ≠ [] ∧
    listConfigsBranch (enumerate_configs true ["default.cfg".toList] (".cfg".toList)) =
      ListOutcome.printedNames (enumerate_configs true ["default.cfg".toList] (".cfg".toList)) :=
  ⟨by decide, (C8_list_flag ["default.cfg".toList] (by decide)).1⟩

/-- C9: owner implies admin — for every constructed Trigger, if the
owner flag is true then the admin flag is true, for any admins list,
owner configuration, nick, host, and host-pattern matching. -/
theorem C9_owner_implies_admin (admins : List String) (ownerCfg nick host : String)
    (findall : String → String → Bool)
    (h : (trigger_admin_owner admins ownerCfg nick host findall).2 = true) :
    (trigger_admin_owner admins ownerCfg nick host findall).1 = true := by
  simp only [trigger_admin_owner] at h ⊢
  rw [h, Bool.or_true]

/-- Witness for `C9_owner_implies_admin`: the owner's nick differs
from the configured owner only by case and is not in the admins
list. -/
theorem C9_owner_implies_admin_witness :
    (trigger_admin_owner [] "Boss" "boss" "example.com" (fun _ _ => false)).2 = true ∧
    (trigger_admin_owner [] "Boss" "boss" "example.com" (fun _ _ => false)).1 = true :=
  ⟨by decide, C9_owner_implies_admin [] "Boss" "boss" "example.com" (fun _ _ => false) (by decide)⟩

/-- C5: rate-limited invocation.  If the nick is not an admin, the
handler is not unblockable, and the nick last used the handler less
than `rate` seconds ago, the body does not run and the timestamp is
refreshed to the current time; and whenever the body runs, the
timestamp is recorded afterwards unless the return value is the
`NOLIMIT` sentinel, in which case the map is unchanged. -/
theorem C5_rate_limit (times : TimesMap) (admin unblockable : Bool) (rate : ℚ)
    (nick fname : String) (now last : ℚ) (retNoLimit : Bool) :
    (admin = false → unblockable = false → dictGet times (nick, fname) = some last →
      now - last < rate →
      call times admin unblockable rate nick fname now retNoLimit =
        { executed := false, times := dictSet times (nick, fname) now }) ∧
    ((call times admin unblockable rate nick fname now retNoLimit).executed = true →
      (call times admin unblockable rate nick fname now retNoLimit).times =
        (if retNoLimit then times else dictSet times (nick, fname) now)) := by
  constructor
  · intro ha hu hg hlt
    simp only [call, ha, hu, and_self, if_true, hg, if_pos trivial]
    rw [if_pos hlt]
  · intro hex
    by_cases hc : admin = false ∧ unblockable = false
    · cases hprev : dictGet times (nick, fname) with
      | none =>
          simp only [call, if_pos hc, hprev]
      | some l =>
          by_cases hlt : now - l < rate
          · rw [show call times admin unblockable rate nick fname now retNoLimit
                  = { executed := false, times := dictSet times (nick, fname) now } from by
                simp only [call, if_pos hc, hprev, if_pos hlt]] at hex
            exact absurd hex (by simp)
          · simp only [call, if_pos hc, hprev, if_neg hlt]
    · simp only [call, if_neg hc]

/-- Witness for `C5_rate_limit`: a second use 3 seconds after the
first with `rate = 5` is skipped and only refreshes the timestamp. -/
theorem C5_rate_limit_witness :
    (3 : ℚ) - 0 < 5 ∧
    call [(("u", "f"), 0)] false false 5 "u" "f" 3 false =
      { executed := false, times := dictSet [(("u", "f"), 0)] ("u", "f") 3 } :=
  ⟨by norm_num,
    (C5_rate_limit [(("u", "f"), 0)] false false 5 "u" "f" 3 0 false).1
      rfl rfl (by decide) (by norm_num)⟩

/-- The state `st` with its capability-request registry replaced. -/
def setCapReqs (st : CapState) (r : List (List Char × List CapEntry)) : CapState :=
  { st with cap_reqs := r }

/-- C4: capability-request conflict rules before connection
registration.  A `-`-prefixed request for capability `c` raises
exactly when some registered entry for `c` has a disposition other
than `-`; a `=`-prefixed or unprefixed request raises exactly when
some registered entry has disposition `-`; every non-raising call
appends its (disposition, module, callback) entry; and `=sasl` from
module "a" followed by `-sasl` from module "b" raises on the second
call while `=sasl` twice from different modules raises on neither. -/
theorem C4_cap_req_conflict (st : CapState) (m : String) (c : List Char) (cb : Option Nat)
    (hreg : st.connection_registered = false) :
    (cap_req st m ('-' :: c) cb = Except.error "Capability conflict" ↔
       ((dictGet st.cap_reqs c).getD []).any (fun ent => decide (ent.1 ≠ ['-'])) = true) ∧
    (((dictGet st.cap_reqs c).getD []).any (fun ent => decide (ent.1 ≠ ['-'])) = false →
       cap_req st m ('-' :: c) cb = Except.ok (setCapReqs st
         (dictSet st.cap_reqs c (((dictGet st.cap_reqs c).getD []) ++ [(['-'], m, cb)])))) ∧
    (cap_req st m ('=' :: c) cb = Except.error "Capability conflict" ↔
       ((dictGet st.cap_reqs c).getD []).any (fun ent => decide (ent.1 = ['-'])) = true) ∧
    (((dictGet st.cap_reqs c).getD []).any (fun ent => decide (ent.1 = ['-'])) = false →
       cap_req st m ('=' :: c) cb = Except.ok (setCapReqs st
         (dictSet st.cap_reqs c (((dictGet st.cap_reqs c).getD []) ++ [(['='], m, cb)])))) ∧
    (∀ c0 rest, c = c0 :: rest → c0 ≠ '-' → c0 ≠ '=' →
      (cap_req st m c cb = Except.error "Capability conflict" ↔
        ((dictGet st.cap_reqs c).getD []).any (fun ent => decide (ent.1 = ['-'])) = true) ∧
      (((dictGet st.cap_reqs c).getD []).any (fun ent => decide (ent.1 = ['-'])) = false →
        cap_req st m c cb = Except.ok (setCapReqs st
          (dictSet st.cap_reqs c (((dictGet st.cap_reqs c).getD []) ++ [(([] : List Char), m, cb)]))))) ∧
    (cap_req (CapState.mk false [] []) "a" ('=' :: "sasl".toList) none =
       Except.ok (CapState.mk false [] [("sasl".toList, [(['='], "a", none)])]) ∧
     cap_req (CapState.mk false [] [("sasl".toList, [(['='], "a", none)])])
         "b" ('-' :: "sasl".toList) none = Except.error "Capability conflict" ∧
     cap_req (CapState.mk false [] [("sasl".toList, [(['='], "a", none)])])
         "b" ('=' :: "sasl".toList) none =
       Except.ok (CapState.mk false []
         [("sasl".toList, [(['='], "a", none), (['='], "b", none)])])) := by
  refine ⟨?_, ?_, ?_, ?_, ?_, by constructor <;> [rfl; constructor <;> rfl]⟩
  · by_cases hany : ((dictGet st.cap_reqs c).getD []).any
        (fun ent => decide (ent.1 ≠ ['-'])) = true
    · simp [cap_req, hreg, hany]
    · simp [cap_req, hreg, hany]
  · intro h
    simp [cap_req, hreg, setCapReqs]
    intro x x1 x2 hmem
    have hx := (List.any_eq_false.mp h) (x, x1, x2) hmem
    simpa using hx
  · by_cases hany : ((dictGet st.cap_reqs c).getD []).any
        (fun ent => decide (ent.1 = ['-'])) = true
    · simp [cap_req, hreg, hany]
    · simp [cap_req, hreg, hany]
  · intro h
    simp [cap_req, hreg, h, setCapReqs]
  · rintro c0 rest rfl hc0m hc0e
    constructor
    · by_cases hany : ((dictGet st.cap_reqs (c0 :: rest)).getD []).any
          (fun ent => decide (ent.1 = ['-'])) = true
      · simp [cap_req, hreg, hany, hc0m, hc0e]
      · simp [cap_req, hreg, hany, hc0m, hc0e]
    · intro h
      simp [cap_req, hreg, h, hc0m, hc0e, setCapReqs]

/-- Witness for `C4_cap_req_conflict` on the empty registry. -/
theorem C4_cap_req_conflict_witness :
    (CapState.mk false [] []).connection_registered = false ∧
    cap_req (CapState.mk false [] []) "mod" ('-' :: "away-notify".toList) none =
      Except.ok (setCapReqs (CapState.mk false [] [])
        (dictSet [] ("away-notify".toList) [(['-'], "mod", none)])) := by
  refine ⟨rfl, ?_⟩
  have h := (C4_cap_req_conflict (CapState.mk false [] []) "mod"
    ("away-notify".toList) none rfl).2.1 (by rfl)
  exact h

/-- `dictGet` is `none` exactly when `find?` finds nothing. -/
theorem dictGet_eq_none_iff [DecidableEq κ] (m : List (κ × α)) (k : κ) :
    dictGet m k = none ↔ m.find? (fun p => decide (p.1 = k)) = none := by
  cases hf : m.find? (fun p => decide (p.1 = k)) <;> simp [dictGet, hf]

/-- Assigning a key that is absent appends it at the end. -/
theorem dictSet_of_get_none [DecidableEq κ] (m : List (κ × α)) (k : κ) (v : α)
    (h : dictGet m k = none) : dictSet m k v = m ++ [(k, v)] := by
  induction m with
  | nil => rfl
  | cons p rest ih =>
    have hf := (dictGet_eq_none_iff (p :: rest) k).mp h
    rw [List.find?_eq_none] at hf
    have hp : ¬ p.1 = k := by simpa using hf p (List.mem_cons_self _ _)
    have hrest : dictGet rest k = none := by
      rw [dictGet_eq_none_iff, List.find?_eq_none]
      intro x hx
      exact hf x (List.mem_cons_of_mem _ hx)
    simp [dictSet, hp, ih hrest]

/-- Ensuring the `multi-prefix` entry touches only the registry. -/
theorem capLsEnsureMP_fields (st : LsState) :
    (capLsEnsureMP st).server_capabilities = st.server_capabilities ∧
    (capLsEnsureMP st).sasl_password = st.sasl_password := by
  simp only [capLsEnsureMP]
  split
  · exact ⟨rfl, rfl⟩
  · exact ⟨rfl, rfl⟩

/-- Ensuring the `multi-prefix` entry keeps every existing registry
item. -/
theorem mem_capLsEnsureMP (st : LsState) (p : String × CapReqVal)
    (hp : p ∈ st.cap_reqs) : p ∈ (capLsEnsureMP st).cap_reqs := by
  simp only [capLsEnsureMP]
  split
  · next hnone =>
    show p ∈ dictSet st.cap_reqs "multi-prefix" (CapReqVal.flat "" "coretasks" none)
    rw [dictSet_of_get_none _ _ _ (by simpa using hnone)]
    exact List.mem_append_left _ hp
  · exact hp

/-- Ensuring the `multi-prefix` entry preserves an all-flat registry
(the added entry is itself flat). -/
theorem capLsEnsureMP_flat (st : LsState)
    (hflat : ∀ p ∈ st.cap_reqs, ∃ pfx m cb, p.2 = CapReqVal.flat pfx m cb) :
    ∀ p ∈ (capLsEnsureMP st).cap_reqs, ∃ pfx m cb, p.2 = CapReqVal.flat pfx m cb := by
  intro p hp
  simp only [capLsEnsureMP] at hp
  split at hp
  · next hnone =>
    have hp2 : p ∈ dictSet st.cap_reqs "multi-prefix" (CapReqVal.flat "" "coretasks" none) :=
      hp
    rw [dictSet_of_get_none _ _ _ (by simpa using hnone)] at hp2
    rcases List.mem_append.mp hp2 with h1 | h2
    · exact hflat p h1
    · rw [List.mem_singleton.mp h2]
      exact ⟨"", "coretasks", none, rfl⟩
  · exact hflat p hp

/-- A successful registry iteration preserves the advertised set and
the SASL flag, and only appends to the outgoing writes. -/
theorem capLsProcessOne_ok_fields (st : LsState) (cap : String) (req : CapReqVal)
    (st2 : LsState) (h : capLsProcessOne st cap req = Except.ok st2) :
    st2.server_capabilities = st.server_capabilities ∧
    st2.sasl_password = st.sasl_password ∧
    ∃ w, st2.writes = st.writes ++ w := by
  cases req with
  | entries l =>
    cases l with
    | nil => exact Except.noConfusion h
    | cons t ts => exact Except.noConfusion h
  | flat pfx m cb =>
    simp only [capLsProcessOne] at h
    split at h
    · obtain rfl := Except.ok.inj h
      exact ⟨rfl, rfl, ⟨[["CAP", "REQ", pfx ++ cap]], rfl⟩⟩
    · split at h
      · obtain rfl := Except.ok.inj h
        exact ⟨rfl, rfl, ⟨[], (List.append_nil _).symm⟩⟩
      · obtain rfl := Except.ok.inj h
        exact ⟨rfl, rfl, ⟨[], (List.append_nil _).symm⟩⟩

/-- A successful registry loop preserves the advertised set and the
SASL flag. -/
theorem capLsLoop_ok_fields (items : List (String × CapReqVal)) (s st3 : LsState)
    (h : capLsLoop items s = Except.ok st3) :
    st3.server_capabilities = s.server_capabilities ∧
    st3.sasl_password = s.sasl_password := by
  revert h
  induction items generalizing s with
  | nil =>
    intro h
    obtain rfl := Except.ok.inj h
    exact ⟨rfl, rfl⟩
  | cons p rest ih =>
    intro h
    cases hp : capLsProcessOne s p.1 p.2 with
    | ok s2 =>
      simp only [capLsLoop, hp] at h
      have h1 := capLsProcessOne_ok_fields s p.1 p.2 s2 hp
      have h2 := ih s2 h
      exact ⟨h2.1.trans h1.1, h2.2.trans h1.2.1⟩
    | error msg =>
      simp only [capLsLoop, hp] at h
      exact Except.noConfusion h

/-- A successful registry loop only appends to the outgoing writes. -/
theorem capLsLoop_writes_mono (items : List (String × CapReqVal)) (s st3 : LsState)
    (h : capLsLoop items s = Except.ok st3) :
    ∃ w, st3.writes = s.writes ++ w := by
  revert h
  induction items generalizing s with
  | nil =>
    intro h
    obtain rfl := Except.ok.inj h
    exact ⟨[], (List.append_nil _).symm⟩
  | cons p rest ih =>
    intro h
    cases hp : capLsProcessOne s p.1 p.2 with
    | ok s2 =>
      simp only [capLsLoop, hp] at h
      obtain ⟨w1, hw1⟩ := (capLsProcessOne_ok_fields s p.1 p.2 s2 hp).2.2
      obtain ⟨w2, hw2⟩ := ih s2 h
      exact ⟨w1 ++ w2, by rw [hw2, hw1, List.append_assoc]⟩
    | error msg =>
      simp only [capLsLoop, hp] at h
      exact Except.noConfusion h

/-- A registry whose values are all flat triples is processed without
raising. -/
theorem capLsLoop_ok_of_flat (items : List (String × CapReqVal)) (s : LsState)
    (hflat : ∀ p ∈ items, ∃ pfx m cb, p.2 = CapReqVal.flat pfx m cb) :
    ∃ st3, capLsLoop items s = Except.ok st3 := by
  induction items generalizing s with
  | nil => exact ⟨s, rfl⟩
  | cons p rest ih =>
    obtain ⟨pfx, m, cb, hp⟩ := hflat p (List.mem_cons_self _ _)
    have hok : ∃ s2, capLsProcessOne s p.1 p.2 = Except.ok s2 := by
      rw [hp]
      simp only [capLsProcessOne]
      split
      · exact ⟨_, rfl⟩
      · split
        · exact ⟨_, rfl⟩
        · exact ⟨_, rfl⟩
    obtain ⟨s2, hs2⟩ := hok
    obtain ⟨st3, hst3⟩ := ih s2 (fun q hq => hflat q (List.mem_cons_of_mem _ hq))
    exact ⟨st3, by simp only [capLsLoop, hs2]; exact hst3⟩

/-- Every requestable flat entry of the registry gets its individual
`CAP REQ` during a successful loop. -/
theorem capLsLoop_issues (items : List (String × CapReqVal)) (s st3 : LsState)
    (h : capLsLoop items s = Except.ok st3) (cap pfx m : String) (cb : Option Nat)
    (hmem : (cap, CapReqVal.flat pfx m cb) ∈ items)
    (hreq : pfx ≠ "=" ∨ cap ∈ s.server_capabilities) :
    ["CAP", "REQ", pfx ++ cap] ∈ st3.writes := by
  revert h hreq
  induction items generalizing s with
  | nil =>
    intro h hreq
    exact absurd hmem (List.not_mem_nil _)
  | cons p rest ih =>
    intro h hreq
    cases hp : capLsProcessOne s p.1 p.2 with
    | error msg =>
      simp only [capLsLoop, hp] at h
      exact Except.noConfusion h
    | ok s2 =>
      simp only [capLsLoop, hp] at h
      rcases List.mem_cons.mp hmem with heq | hrest
      · rw [← heq] at hp
        simp only [capLsProcessOne] at hp
        rw [if_pos hreq] at hp
        obtain rfl := Except.ok.inj hp
        obtain ⟨w, hw⟩ := capLsLoop_writes_mono rest _ st3 h
        rw [hw]
        simp
      · have hfields := capLsProcessOne_ok_fields s p.1 p.2 s2 hp
        refine ih s2 hrest h ?_
        rcases hreq with h1 | h2
        · exact Or.inl h1
        · exact Or.inr (by rw [hfields.1]; exact h2)

/-- A registry containing any `cap_req`-stored list value makes the
loop raise. -/
theorem capLsLoop_error_of_entries (items : List (String × CapReqVal)) (s : LsState)
    (hmem : ∃ cap l, (cap, CapReqVal.entries l) ∈ items) :
    ∃ e, capLsLoop items s = Except.error e := by
  induction items generalizing s with
  | nil =>
    obtain ⟨cap, l, hm⟩ := hmem
    exact absurd hm (List.not_mem_nil _)
  | cons p rest ih =>
    obtain ⟨cap, l, hm⟩ := hmem
    rcases List.mem_cons.mp hm with heq | hrest
    · cases l with
      | nil =>
        exact ⟨("IndexError: list index out of range", s), by rw [← heq]; rfl⟩
      | cons t ts =>
        exact ⟨("TypeError: can only concatenate tuple (not str) to tuple", s),
          by rw [← heq]; rfl⟩
    · cases hp : capLsProcessOne s p.1 p.2 with
      | ok s2 =>
        obtain ⟨e, he⟩ := ih s2 ⟨cap, l, hrest⟩
        exact ⟨e, by simp only [capLsLoop, hp]; exact he⟩
      | error msg =>
        exact ⟨(msg, s), by simp only [capLsLoop, hp]⟩

/-- The finish stage preserves the advertised set and appends exactly
the final write chosen by the SASL flag. -/
theorem capLsFinish_fields (st : LsState) :
    (capLsFinish st).server_capabilities = st.server_capabilities ∧
    (capLsFinish st).writes = st.writes ++
      [if st.sasl_password = true then ["CAP", "REQ", "sasl"] else ["CAP", "END"]] := by
  simp only [capLsFinish]
  split <;> exact ⟨rfl, rfl⟩

/-- C6: CAP LS processing happens at most once, evaluated against the
code.  (1) When the recorded server-capability set is non-empty, a
further LS reply returns the state unchanged: no CAP REQ or CAP END is
sent and the set and registry are untouched.  (2) When the set is
empty and every registry value has the flat shape this function itself
stores, the reply records the advertised set, sends an individual
CAP REQ for every requestable registered capability, and ends with
CAP REQ sasl when a SASL password is configured and with CAP END
otherwise.  (3) But when any registry value was stored by
`Sopel.cap_req` (a list of tuples), the loop raises TypeError at
`req[0] + cap` and aborts before those writes; concretely, a first LS
reply over the registry entry `account-notify` with a SASL password
configured raises with no message written at all. -/
theorem C6_cap_ls_once (st : LsState) (adv : List String) :
    (st.server_capabilities ≠ [] → recieve_cap_ls_reply st adv = Except.ok st) ∧
    (st.server_capabilities = [] →
      (∀ p ∈ st.cap_reqs, ∃ pfx m cb, p.2 = CapReqVal.flat pfx m cb) →
      ∃ st3, recieve_cap_ls_reply st adv = Except.ok st3 ∧
        st3.server_capabilities = adv ∧
        (∀ cap pfx m cb, (cap, CapReqVal.flat pfx m cb) ∈ st.cap_reqs →
          (pfx ≠ "=" ∨ cap ∈ adv) → ["CAP", "REQ", pfx ++ cap] ∈ st3.writes) ∧
        (st.sasl_password = true →
          st3.writes.getLast? = some ["CAP", "REQ", "sasl"]) ∧
        (st.sasl_password = false →
          st3.writes.getLast? = some ["CAP", "END"])) ∧
    (st.server_capabilities = [] →
      (∃ cap l, (cap, CapReqVal.entries l) ∈ st.cap_reqs) →
      ∃ e, recieve_cap_ls_reply st adv = Except.error e) ∧
    recieve_cap_ls_reply
        (LsState.mk [] [("account-notify", CapReqVal.entries [("", "mod", none)])]
          true [] [])
        ["account-notify", "sasl"] =
      Except.error ("TypeError: can only concatenate tuple (not str) to tuple",
        LsState.mk ["account-notify", "sasl"]
          [("account-notify", CapReqVal.entries [("", "mod", none)]),
           ("multi-prefix", CapReqVal.flat "" "coretasks" none)] true [] []) := by
  refine ⟨?_, ?_, ?_, by rfl⟩
  · intro h
    simp [recieve_cap_ls_reply, h]
  · intro h hflat
    have hcond : ¬ st.server_capabilities ≠ [] := by simp [h]
    have hflat1 : ∀ p ∈ (capLsEnsureMP { st with server_capabilities := adv }).cap_reqs,
        ∃ pfx m cb, p.2 = CapReqVal.flat pfx m cb :=
      capLsEnsureMP_flat _ hflat
    obtain ⟨st3, hloop⟩ := capLsLoop_ok_of_flat
      (capLsEnsureMP { st with server_capabilities := adv }).cap_reqs
      (capLsEnsureMP { st with server_capabilities := adv }) hflat1
    have hmp := capLsEnsureMP_fields { st with server_capabilities := adv }
    have hlf := capLsLoop_ok_fields _ _ _ hloop
    have hserver3 : st3.server_capabilities = adv := hlf.1.trans hmp.1
    have hsasl3 : st3.sasl_password = st.sasl_password := hlf.2.trans hmp.2
    have hfin := capLsFinish_fields st3
    refine ⟨capLsFinish st3, ?_, ?_, ?_, ?_, ?_⟩
    · unfold recieve_cap_ls_reply
      rw [if_neg hcond, hloop]
    · exact hfin.1.trans hserver3
    · intro cap pfx m cb hmem hreq
      have hmem1 : (cap, CapReqVal.flat pfx m cb) ∈
          (capLsEnsureMP { st with server_capabilities := adv }).cap_reqs :=
        mem_capLsEnsureMP _ _ hmem
      have hreq1 : pfx ≠ "=" ∨ cap ∈
          (capLsEnsureMP { st with server_capabilities := adv }).server_capabilities := by
        rw [hmp.1]
        exact hreq
      have hmsg := capLsLoop_issues _ _ _ hloop cap pfx m cb hmem1 hreq1
      rw [hfin.2]
      exact List.mem_append_left _ hmsg
    · intro hs
      rw [hfin.2, hsasl3, hs, if_pos rfl]
      exact List.getLast?_concat _
    · intro hs
      rw [hfin.2, hsasl3, hs]
      rw [if_neg (by simp)]
      exact List.getLast?_concat _
  · intro h hentries
    have hcond : ¬ st.server_capabilities ≠ [] := by simp [h]
    obtain ⟨cap, l, hmem⟩ := hentries
    have hmem1 : (cap, CapReqVal.entries l) ∈
        (capLsEnsureMP { st with server_capabilities := adv }).cap_reqs :=
      mem_capLsEnsureMP _ _ hmem
    obtain ⟨e, he⟩ := capLsLoop_error_of_entries
      (capLsEnsureMP { st with server_capabilities := adv }).cap_reqs
      (capLsEnsureMP { st with server_capabilities := adv }) ⟨cap, l, hmem1⟩
    refine ⟨e, ?_⟩
    unfold recieve_cap_ls_reply
    rw [if_neg hcond, he]

/-- Witness for `C6_cap_ls_once`: a second LS reply after the set
`["sasl"]` was recorded changes nothing. -/
theorem C6_cap_ls_once_witness :
    (LsState.mk ["sasl"] [] true [] []).server_capabilities ≠ [] ∧
    recieve_cap_ls_reply (LsState.mk ["sasl"] [] true [] []) ["sasl", "tls"] =
      Except.ok (LsState.mk ["sasl"] [] true [] []) :=
  ⟨by decide,
    (C6_cap_ls_once (LsState.mk ["sasl"] [] true [] []) ["sasl", "tls"]).1 (by decide)⟩

/-- Looking up the key just stored in a dict model returns the stored
value. -/
theorem dictGet_dictSet_self [DecidableEq κ] (m : List (κ × α)) (k : κ) (v : α) :
    dictGet (dictSet m k v) k = some v := by
  induction m with
  | nil => simp [dictGet, dictSet]
  | cons p rest ih =>
    by_cases h : p.1 = k
    · simp [dictGet, dictSet, h]
    · simpa [dictGet, dictSet, h] using ih

/-- The second components of a zip are the initial segment of the
second list cut at the first list's length. -/
theorem map_snd_zip_take (l : List α) (m : List β) :
    (l.zip m).map Prod.snd = m.take l.length := by
  induction l generalizing m with
  | nil => simp
  | cons a l ih =>
    cases m with
    | nil => simp
    | cons b m => simp [ih]

/-- The first components of a zip are the initial segment of the first
list cut at the second list's length. -/
theorem map_fst_zip_take (l : List α) (m : List β) :
    (l.zip m).map Prod.fst = l.take m.length := by
  induction l generalizing m with
  | nil => simp
  | cons a l ih =>
    cases m with
    | nil => simp
    | cons b m => simp [ih]

/-- C10: MODE mismatch truncation.  With `n ≥ 1` parsed signed mode
tokens and strictly more nick arguments, the nick list is cut to
`n - 1` entries, so exactly `n - 1` (nick, mode) pairs are applied and
the `n`-th mode token is paired with no nick; with more modes than
nicks the mode list is cut to one more than the nick count and every
nick still receives a mode.  Concretely, `MODE #c +ov alice bob carol`
applies `+o` to alice only. -/
theorem C10_mode_truncation (mode_sec : List Char) (nickArgs : List String) (n : Nat)
    (hn : (breakModes mode_sec).length = n) (h1 : 1 ≤ n) :
    (nickArgs.length > n →
      (modePairs mode_sec nickArgs).length = n - 1 ∧
      (modePairs mode_sec nickArgs).map Prod.snd = (breakModes mode_sec).take (n - 1) ∧
      (modePairs mode_sec nickArgs).map Prod.fst = (nickArgs.map foldNick).take (n - 1)) ∧
    (n > nickArgs.length → 1 ≤ nickArgs.length →
      (truncModes (breakModes mode_sec) nickArgs.length).length = nickArgs.length + 1 ∧
      (modePairs mode_sec nickArgs).length = nickArgs.length ∧
      (modePairs mode_sec nickArgs).map Prod.fst = nickArgs.map foldNick) ∧
    track_modes (ModeState.mk [] [] [] []) ["#c", "+ov", "alice", "bob", "carol"] =
      ModeState.mk [("alice", OP)] ["alice"] [] [] := by
  refine ⟨?_, ?_, by decide⟩
  · intro hgt
    have hlen : (nickArgs.map foldNick).length = nickArgs.length := List.length_map _ _
    have hmodes2 : truncModes (breakModes mode_sec) (nickArgs.map foldNick).length =
        breakModes mode_sec := by
      rw [truncModes, if_neg]
      omega
    have hnicks2 : truncNicks (nickArgs.map foldNick) (breakModes mode_sec).length =
        (nickArgs.map foldNick).take (n - 1) := by
      rw [truncNicks, if_pos (by omega), hn]
    have hn2len : ((nickArgs.map foldNick).take (n - 1)).length = n - 1 := by
      rw [List.length_take]
      omega
    by_cases hone : n = 1
    · have hguard : (modePairs mode_sec nickArgs) = [] := by
        rw [modePairs]
        simp only [hmodes2, hnicks2]
        rw [if_pos]
        right
        rw [hn2len, hone]
      rw [hguard, hone]
      simp
    · have hguard : (modePairs mode_sec nickArgs) =
          ((nickArgs.map foldNick).take (n - 1)).zip (breakModes mode_sec) := by
        rw [modePairs]
        simp only [hmodes2, hnicks2]
        rw [if_neg]
        rw [hn2len, hn]
        omega
      rw [hguard]
      refine ⟨?_, ?_, ?_⟩
      · rw [List.length_zip, hn2len, hn]
        omega
      · rw [map_snd_zip_take, hn2len]
      · rw [map_fst_zip_take, hn, List.take_take]
        congr 1
        omega
  · intro hgt hone
    have hlen : (nickArgs.map foldNick).length = nickArgs.length := List.length_map _ _
    have hmodes2 : truncModes (breakModes mode_sec) (nickArgs.map foldNick).length =
        (breakModes mode_sec).take (nickArgs.length + 1) := by
      rw [truncModes, if_pos (by omega), hlen]
    have hm2len : ((breakModes mode_sec).take (nickArgs.length + 1)).length =
        nickArgs.length + 1 := by
      rw [List.length_take]
      omega
    have hnicks2 : truncNicks (nickArgs.map foldNick) (breakModes mode_sec).length =
        nickArgs.map foldNick := by
      rw [truncNicks, if_neg]
      omega
    have hguard : (modePairs mode_sec nickArgs) =
        (nickArgs.map foldNick).zip ((breakModes mode_sec).take (nickArgs.length + 1)) := by
      rw [modePairs]
      simp only [hmodes2, hnicks2]
      rw [if_neg]
      rw [hm2len, hlen]
      omega
    rw [hlen] at hmodes2
    refine ⟨by rw [hmodes2, hm2len], ?_, ?_⟩
    · rw [hguard, List.length_zip, hlen, hm2len]
      omega
    · rw [hguard, map_fst_zip_take, hm2len, List.take_of_length_le (by omega)]

/-- Witness for `C10_mode_truncation`: two modes, three nicks. -/
theorem C10_mode_truncation_witness :
    ((breakModes ("+ov".toList)).length = 2 ∧ 1 ≤ 2 ∧ (["a", "b", "c"] : List String).length > 2) ∧
    (modePairs ("+ov".toList) ["a", "b", "c"]).length = 2 - 1 :=
  ⟨⟨by decide, by decide, by decide⟩,
    ((C10_mode_truncation ("+ov".toList) ["a", "b", "c"] 2 (by decide) (by decide)).1
      (by decide)).1⟩

/-- C7: privilege-bitmask monotonicity under MODE.  For every signed
privilege mode pair, the nick's bitmask entry becomes its old value
ORed with the mode's bit whether the sign is `+` or `-` (no bit is
cleared on `-`), while the legacy op/half-op/voice list adds the nick
on `+` and removes it on `-`.  Concretely, `MODE #c -o alice` leaves
alice's Op bit set while removing her from the legacy op list. -/
theorem C7_mode_or_monotone (st : ModeState) (nick : String) (sign mc : Char)
    (hs : sign = '+' ∨ sign = '-') (hv : (privMapping mc).isSome = true) :
    dictGet (applyModePair st nick [sign, mc]).privileges nick =
      some (((dictGet st.privileges nick).getD 0) ||| ((privMapping mc).getD 0)) ∧
    ((mc = 'o' ∨ mc = 'q' ∨ mc = 'a') →
      (sign = '+' → (applyModePair st nick [sign, mc]).ops = legacyAdd st.ops nick) ∧
      (sign = '-' → (applyModePair st nick [sign, mc]).ops = legacyDel st.ops nick)) ∧
    (mc = 'h' →
      (sign = '+' → (applyModePair st nick [sign, mc]).halfplus = legacyAdd st.halfplus nick) ∧
      (sign = '-' → (applyModePair st nick [sign, mc]).halfplus = legacyDel st.halfplus nick)) ∧
    (mc = 'v' →
      (sign = '+' → (applyModePair st nick [sign, mc]).voices = legacyAdd st.voices nick) ∧
      (sign = '-' → (applyModePair st nick [sign, mc]).voices = legacyDel st.voices nick)) ∧
    track_modes (ModeState.mk [("alice", OP)] ["alice"] [] []) ["#c", "-o", "alice"] =
      ModeState.mk [("alice", OP)] [] [] [] := by
  have hmc : mc = 'v' ∨ mc = 'h' ∨ mc = 'o' ∨ mc = 'a' ∨ mc = 'q' := by
    by_contra hno
    push_neg at hno
    simp [privMapping, hno.1, hno.2.1, hno.2.2.1, hno.2.2.2.1, hno.2.2.2.2] at hv
  refine ⟨?_, ?_, ?_, ?_, by decide⟩
  · rcases hmc with rfl | rfl | rfl | rfl | rfl <;>
      rcases hs with rfl | rfl <;>
      simp [applyModePair, privMapping, VOICE, HALFOP, OP, ADMIN, OWNER, dictGet_dictSet_self]
  · rintro hmco
    constructor
    · rintro rfl
      rcases hmco with rfl | rfl | rfl <;> simp [applyModePair, privMapping]
    · rintro rfl
      rcases hmco with rfl | rfl | rfl <;> simp [applyModePair, privMapping]
  · rintro rfl
    constructor
    · rintro rfl
      simp [applyModePair, privMapping]
    · rintro rfl
      simp [applyModePair, privMapping]
  · rintro rfl
    constructor
    · rintro rfl
      simp [applyModePair, privMapping]
    · rintro rfl
      simp [applyModePair, privMapping]

/-- Witness for `C7_mode_or_monotone`: a `-v` on a nick holding Voice
and Op bits keeps both bits set. -/
theorem C7_mode_or_monotone_witness :
    (('-' : Char) = '+' ∨ ('-' : Char) = '-') ∧
    dictGet (applyModePair (ModeState.mk [("bob", 5)] [] [] ["bob"]) "bob"
        ['-', 'v']).privileges "bob" = some (5 ||| 1) :=
  ⟨Or.inr rfl,
    (C7_mode_or_monotone (ModeState.mk [("bob", 5)] [] [] ["bob"]) "bob" '-' 'v'
      (Or.inr rfl) (by decide)).1⟩

end JoikervgBot
